import Mathlib

/-!
Verification of the page-bucketing / splitting pipeline of
`compress_combine_pdfs.py` (repository `sheetpress`).

The embedding models:
* an input document by its byte size and page count (the only attributes
  the splitting logic reads);
* the per-page cost estimate `file_bytes / n_pages if n_pages else 0`
  as exact rational arithmetic;
* the greedy grouping loop of `combine_pdfs` (lines 137-152) as a
  structurally recursive function `groupLoop`;
* the output-path naming of the writer loop (lines 154-174);
* the Ghostscript argument list built by `compress_pdf` (lines 47-77);
* the per-document fallback of `main`'s processing loop (lines 232-249).

Pages are identified by the pair (document index, page index inside the
document), so order and identity claims can be stated exactly.
-/

namespace SheetPress

/-- An input document as the splitting path of `combine_pdfs` sees it:
`fileBytes` is `pdf_path.stat().st_size` and `nPages` is
`len(reader.pages)` (lines 126-129 of the source). -/
structure Doc where
  fileBytes : Nat
  nPages : Nat
deriving DecidableEq, Repr

/-- Per-page cost estimate, line 130 of the source:
`est_page_bytes = file_bytes / n_pages if n_pages else 0`.
The guard makes a zero-page document contribute cost 0 instead of
dividing by zero. -/
def estPageBytes (d : Doc) : ℚ :=
  if d.nPages = 0 then 0 else (d.fileBytes : ℚ) / (d.nPages : ℚ)

/-- A Page Unit: the identity of a page (document index, page index
within its document) together with its estimated byte cost. -/
abbrev PageUnit := (Nat × Nat) × ℚ

/-- The pages contributed by the document at position `i` of the input
list: one Page Unit per page, in page order, all carrying the uniform
per-page estimate (inner loop, lines 131-132). -/
def docPages (i : Nat) (d : Doc) : List PageUnit :=
  (List.range d.nPages).map (fun j => ((i, j), estPageBytes d))

/-- The `pages_with_sizes` list built by lines 125-132: all pages of all
documents, in input-document order, each paired with its estimate. -/
def pagesWithSizes (docs : List Doc) : List PageUnit :=
  (docs.enum.map (fun p => docPages p.1 p.2)).flatten

/-- Python `int()` applied to a rational: truncation toward zero. -/
def pyInt (q : ℚ) : ℤ :=
  if 0 ≤ q then ⌊q⌋ else ⌈q⌉

/-- Line 122: `max_size_bytes = int(max_size_mb * 1024 * 1024)`. -/
def maxSizeBytes (maxSizeMb : ℚ) : ℤ :=
  pyInt (maxSizeMb * (1024 * 1024))

/-- The grouping loop of `combine_pdfs` (lines 138-152), in accumulator
form.  State: pages still to process, the current part, the running
`current_size`, and the closed parts so far.  The guard is the source's
`if current_part and current_size + est_bytes > max_size_bytes`; after
the loop a non-empty current part is appended (line 151). -/
def groupLoop {α : Type} (maxB : ℚ) :
    List (α × ℚ) → List (α × ℚ) → ℚ → List (List (α × ℚ)) →
    List (List (α × ℚ))
  | [], cur, _, parts => if cur.isEmpty then parts else parts ++ [cur]
  | pe :: rest, cur, size, parts =>
    if cur.isEmpty = false ∧ maxB < size + pe.2 then
      groupLoop maxB rest [pe] pe.2 (parts ++ [cur])
    else
      groupLoop maxB rest (cur ++ [pe]) (size + pe.2) parts

/-- The Output Groups produced by `combine_pdfs`.  With no ceiling
(lines 114-120) the writer appends every input document whole, so the
single output holds all pages in input order; with a ceiling the
splitting path builds `pages_with_sizes`, returns no group when it is
empty (lines 134-135), and otherwise runs the grouping loop. -/
def combineGroups (docs : List Doc) (maxSizeMb : Option ℚ) :
    List (List PageUnit) :=
  match maxSizeMb with
  | none => [pagesWithSizes docs]
  | some mb =>
    if (pagesWithSizes docs).isEmpty then []
    else groupLoop ((maxSizeBytes mb : ℤ) : ℚ) (pagesWithSizes docs) [] 0 []

/-- An output path, split the way `pathlib` exposes it to lines 155-157:
directory, stem, and file extension. -/
structure OutPath where
  parent : String
  stem : String
  ext : String
deriving DecidableEq, Repr

/-- The sibling path `parent / f"{stem}_part{i}{suffix}"` of line 168. -/
def partPath (out : OutPath) (i : Nat) : OutPath :=
  { out with stem := out.stem ++ "_part" ++ toString i }

/-- The list of output files written by `combine_pdfs`: `[output_path]`
on the no-ceiling path (line 120); on the splitting path, one file per
part in part order, named `output_path` when there is exactly one part
and `stem_part<i>` (1-based) otherwise (lines 160-174). -/
def combineOutputs (docs : List Doc) (out : OutPath)
    (maxSizeMb : Option ℚ) : List OutPath :=
  match maxSizeMb with
  | none => [out]
  | some mb =>
    (List.range (combineGroups docs (some mb)).length).map
      (fun i => if (combineGroups docs (some mb)).length = 1 then out
                else partPath out (i + 1))

/-- Estimated cumulative cost of a group: the sum of its pages'
per-page estimates. -/
def sumCost {α : Type} (g : List (α × ℚ)) : ℚ :=
  (g.map Prod.snd).sum

/-- The invariant a finished group must satisfy against ceiling `maxB`:
its cumulative estimated cost stays within the ceiling, or it is a
single oversized page forming its own over-limit group. -/
def goodGroup {α : Type} (maxB : ℚ) (g : List (α × ℚ)) : Prop :=
  sumCost g ≤ maxB ∨ ∃ pe, g = [pe] ∧ maxB < pe.2

/-- The `GS_PRESETS` table of lines 23-28. -/
def GS_PRESETS : List (String × String) :=
  [("screen", "/screen"), ("ebook", "/ebook"),
   ("printer", "/printer"), ("prepress", "/prepress")]

/-- Line 45: `preset = GS_PRESETS.get(quality, "/ebook")`. -/
def gsPreset (quality : String) : String :=
  ((GS_PRESETS.find? (fun p => p.1 == quality)).map Prod.snd).getD "/ebook"

/-- The Ghostscript argument list built by `compress_pdf`
(lines 47-77), element for element. -/
def compressArgs (gsCmd inputPath outputFile : String) (dpi : ℤ)
    (quality : String) : List String :=
  [gsCmd,
   "-sDEVICE=pdfwrite",
   "-dCompatibilityLevel=1.5",
   "-dPDFSETTINGS=" ++ gsPreset quality,
   "-dNOPAUSE",
   "-dQUIET",
   "-dBATCH",
   "-dDownsampleColorImages=true",
   "-dColorImageResolution=" ++ toString dpi,
   "-dColorImageDownsampleType=/Bicubic",
   "-dDownsampleGrayImages=true",
   "-dGrayImageResolution=" ++ toString dpi,
   "-dGrayImageDownsampleType=/Bicubic",
   "-dDownsampleMonoImages=true",
   "-dMonoImageResolution=" ++ toString (max dpi 300),
   "-dAutoFilterColorImages=false",
   "-dColorImageFilter=/DCTEncode",
   "-dAutoFilterGrayImages=false",
   "-dGrayImageFilter=/DCTEncode",
   "-dDetectDuplicateImages=true",
   "-dCompressFonts=true",
   "-dSubsetFonts=true",
   "-sOutputFile=" ++ outputFile,
   inputPath]

/-- Return value of `compress_pdf` (lines 79-83): success exactly when
the external process exits with code 0. -/
def compressSucceeds (returncode : ℤ) : Bool :=
  returncode == 0

/-- The per-document processing loop of `main` (lines 232-249): the
`i`-th input (1-based, from `enumerate(pdfs, 1)`) becomes its scratch
compressed file when Ghostscript is available, compression is enabled
and the external call exits 0, and stays the original path otherwise.
`rc i` is the external exit code for document `i` and `compressedPath i`
models `tmpdir / f"compressed_\x7bi:03d\x7d.pdf"`. -/
def processedDocs {α : Type} (gsCmd : Option String) (noCompress : Bool)
    (rc : Nat → ℤ) (compressedPath : Nat → α) (pdfs : List α) : List α :=
  pdfs.enum.map (fun p =>
    if gsCmd.isSome = true ∧ noCompress = false then
      if compressSucceeds (rc (p.1 + 1)) then compressedPath (p.1 + 1)
      else p.2
    else p.2)

end SheetPress

namespace SheetPress

/-! ### Helper lemmas about the grouping loop -/

/-- Flattening the groups produced by the loop recovers the closed
parts, the current part and the unprocessed pages, in that order. -/
theorem groupLoop_flatten {α : Type} (maxB : ℚ) (pages : List (α × ℚ)) :
    ∀ (cur : List (α × ℚ)) (size : ℚ) (parts : List (List (α × ℚ))),
    (groupLoop maxB pages cur size parts).flatten =
      parts.flatten ++ cur ++ pages := by
  induction pages with
  | nil =>
    intro cur size parts
    simp only [groupLoop]
    split
    · next h => simp [List.isEmpty_iff.mp h]
    · simp
  | cons pe rest ih =>
    intro cur size parts
    simp only [groupLoop]
    split
    · rw [ih]; simp
    · rw [ih]; simp

/-- Every group the loop emits is non-empty, provided the groups closed
so far are. -/
theorem groupLoop_ne_nil {α : Type} (maxB : ℚ) (pages : List (α × ℚ)) :
    ∀ (cur : List (α × ℚ)) (size : ℚ) (parts : List (List (α × ℚ))),
    (∀ g ∈ parts, g ≠ []) →
    ∀ g ∈ groupLoop maxB pages cur size parts, g ≠ [] := by
  induction pages with
  | nil =>
    intro cur size parts hparts g hg
    simp only [groupLoop] at hg
    split at hg
    · exact hparts g hg
    · next h =>
      rcases List.mem_append.mp hg with h1 | h2
      · exact hparts g h1
      · rcases List.mem_singleton.mp h2 with rfl
        simpa [List.isEmpty_iff] using h
  | cons pe rest ih =>
    intro cur size parts hparts g hg
    simp only [groupLoop] at hg
    split at hg
    · next hcond =>
      refine ih [pe] pe.2 (parts ++ [cur]) ?_ g hg
      intro g' hg'
      rcases List.mem_append.mp hg' with h1 | h2
      · exact hparts g' h1
      · rcases List.mem_singleton.mp h2 with rfl
        simpa [List.isEmpty_iff] using hcond.1
    · exact ih (cur ++ [pe]) (size + pe.2) parts hparts g hg

/-- Cost bookkeeping: appending a page adds its estimate. -/
theorem sumCost_append_single {α : Type} (g : List (α × ℚ)) (pe : α × ℚ) :
    sumCost (g ++ [pe]) = sumCost g + pe.2 := by
  simp [sumCost]

/-- A one-page group always satisfies the group invariant: either its
single estimate fits the ceiling or it is the accepted oversized case. -/
theorem goodGroup_single {α : Type} (maxB : ℚ) (pe : α × ℚ) :
    goodGroup maxB [pe] := by
  rcases le_or_lt pe.2 maxB with h | h
  · left; simpa [sumCost] using h
  · exact Or.inr ⟨pe, rfl, h⟩

/-- Main invariant of the grouping loop: if the running size is the
current part's cost, the current part is empty or good, and all closed
parts are good, then every emitted group is good. -/
theorem groupLoop_good {α : Type} (maxB : ℚ) (pages : List (α × ℚ)) :
    ∀ (cur : List (α × ℚ)) (size : ℚ) (parts : List (List (α × ℚ))),
    size = sumCost cur →
    (cur = [] ∨ goodGroup maxB cur) →
    (∀ g ∈ parts, goodGroup maxB g) →
    ∀ g ∈ groupLoop maxB pages cur size parts, goodGroup maxB g := by
  induction pages with
  | nil =>
    intro cur size parts _ hcur hparts g hg
    simp only [groupLoop] at hg
    split at hg
    · exact hparts g hg
    · next h =>
      rcases List.mem_append.mp hg with h1 | h2
      · exact hparts g h1
      · rcases List.mem_singleton.mp h2 with rfl
        rcases hcur with rfl | hgood
        · simp at h
        · exact hgood
  | cons pe rest ih =>
    intro cur size parts hsize hcur hparts g hg
    simp only [groupLoop] at hg
    split at hg
    · next hcond =>
      refine ih [pe] pe.2 (parts ++ [cur]) (by simp [sumCost]) (Or.inr (goodGroup_single maxB pe)) ?_ g hg
      intro g' hg'
      rcases List.mem_append.mp hg' with h1 | h2
      · exact hparts g' h1
      · rcases List.mem_singleton.mp h2 with rfl
        rcases hcur with rfl | hgood
        · simp at hcond
        · exact hgood
    · next hcond =>
      refine ih (cur ++ [pe]) (size + pe.2) parts (by simp [sumCost_append_single, hsize]) ?_ hparts g hg
      rcases eq_or_ne cur [] with rfl | hne
      · exact Or.inr (by simpa using goodGroup_single maxB pe)
      · refine Or.inr (Or.inl ?_)
        rw [sumCost_append_single, ← hsize]
        by_contra hlt
        exact hcond ⟨by simpa [List.isEmpty_iff] using hne, lt_of_not_le hlt⟩

/-- Per-page estimates are never negative: a file size divided by a
page count, or the guarded 0 for a zero-page document. -/
theorem estPageBytes_nonneg (d : Doc) : 0 ≤ estPageBytes d := by
  unfold estPageBytes
  split
  · exact le_refl 0
  · positivity

/-- Every Page Unit carries a non-negative estimate. -/
theorem pagesWithSizes_cost_nonneg (docs : List Doc) :
    ∀ pe ∈ pagesWithSizes docs, 0 ≤ pe.2 := by
  intro pe hpe
  rcases List.mem_flatten.mp hpe with ⟨l, hl, hpel⟩
  rcases List.mem_map.mp hl with ⟨p, _, rfl⟩
  simp only [docPages] at hpel
  rcases List.mem_map.mp hpel with ⟨j, _, rfl⟩
  exact estPageBytes_nonneg p.2

/-- With a non-positive ceiling, any page with positive estimate ends
up alone in its group. -/
theorem groupLoop_singleton {α : Type} (maxB : ℚ) (hmB : maxB ≤ 0)
    (pages : List (α × ℚ)) :
    ∀ (cur : List (α × ℚ)) (size : ℚ) (parts : List (List (α × ℚ))),
    (∀ pe ∈ pages, 0 ≤ pe.2) →
    size = sumCost cur →
    (∀ pe ∈ cur, 0 ≤ pe.2) →
    (∀ pe ∈ cur, 0 < pe.2 → cur = [pe]) →
    (∀ g ∈ parts, ∀ pe ∈ g, 0 < pe.2 → g = [pe]) →
    ∀ g ∈ groupLoop maxB pages cur size parts,
      ∀ pe ∈ g, 0 < pe.2 → g = [pe] := by
  induction pages with
  | nil =>
    intro cur size parts _ _ _ hcur hparts g hg
    simp only [groupLoop] at hg
    split at hg
    · exact hparts g hg
    · rcases List.mem_append.mp hg with h1 | h2
      · exact hparts g h1
      · rcases List.mem_singleton.mp h2 with rfl
        exact hcur
  | cons pe rest ih =>
    intro cur size parts hpages hsize hnn hcur hparts g hg
    have hpe : 0 ≤ pe.2 := hpages pe (by simp)
    have hrest : ∀ q ∈ rest, 0 ≤ q.2 := fun q hq => hpages q (by simp [hq])
    simp only [groupLoop] at hg
    split at hg
    · next hcond =>
      refine ih [pe] pe.2 (parts ++ [cur]) hrest (by simp [sumCost])
        (by simpa using hpe) ?_ ?_ g hg
      · intro q hq _
        rcases List.mem_singleton.mp hq with rfl
        rfl
      · intro g' hg'
        rcases List.mem_append.mp hg' with h1 | h2
        · exact hparts g' h1
        · rcases List.mem_singleton.mp h2 with rfl
          exact hcur
    · next hcond =>
      rcases eq_or_ne cur [] with rfl | hne
      · have h0 : size = 0 := by simpa [sumCost] using hsize
        subst h0
        refine ih [pe] (0 + pe.2) parts hrest (by simp [sumCost])
          (by simpa using hpe) ?_ hparts g (by simpa using hg)
        intro q hq _
        rcases List.mem_singleton.mp hq with rfl
        rfl
      · have hempty : cur.isEmpty = false := by
          simpa [List.isEmpty_iff] using hne
        have hle : size + pe.2 ≤ maxB := by
          by_contra hlt
          exact hcond ⟨hempty, lt_of_not_le hlt⟩
        have hnn2 : ∀ q ∈ cur ++ [pe], 0 ≤ q.2 := by
          intro q hq
          rcases List.mem_append.mp hq with h1 | h2
          · exact hnn q h1
          · rcases List.mem_singleton.mp h2 with rfl
            exact hpe
        refine ih (cur ++ [pe]) (size + pe.2) parts hrest
          (by simp [sumCost_append_single, hsize]) hnn2 ?_ hparts g hg
        intro q hq hqpos
        exfalso
        have hsum : sumCost (cur ++ [pe]) ≤ 0 := by
          rw [sumCost_append_single, ← hsize]
          exact le_trans hle hmB
        have hqle : q.2 ≤ sumCost (cur ++ [pe]) := by
          refine List.single_le_sum ?_ _ (List.mem_map_of_mem Prod.snd hq)
          intro x hx
          rcases List.mem_map.mp hx with ⟨q2, hq2, rfl⟩
          exact hnn2 q2 hq2
        linarith

/-- The number of Page Units is the total page count of the inputs. -/
theorem pagesWithSizes_length (docs : List Doc) :
    (pagesWithSizes docs).length = (docs.map Doc.nPages).sum := by
  have h : docs.enum.map (fun p => p.2.nPages) = docs.map Doc.nPages := by
    rw [show (fun p : Nat × Doc => p.2.nPages) = Doc.nPages ∘ Prod.snd from rfl,
      ← List.map_map, List.enum_map_snd]
  simp [pagesWithSizes, docPages, List.length_flatten, List.map_map,
    Function.comp_def, ← h]

/-- A list of singleton lists flattens to one element per list. -/
theorem flatten_length_of_singletons {β : Type} :
    ∀ L : List (List β), (∀ g ∈ L, ∃ x, g = [x]) →
    L.flatten.length = L.length := by
  intro L
  induction L with
  | nil => simp
  | cons g t ih =>
    intro h
    rcases h g (by simp) with ⟨x, rfl⟩
    simp [ih (fun g2 hg2 => h g2 (by simp [hg2]))]

/-- Element-wise description of `main`'s processing loop. -/
theorem processedDocs_getElem {α : Type} (gsCmd : Option String)
    (noCompress : Bool) (rc : Nat → ℤ) (cp : Nat → α) (pdfs : List α)
    (j : Nat) (hj : j < pdfs.length) :
    (processedDocs gsCmd noCompress rc cp pdfs)[j]? =
      some (if gsCmd.isSome = true ∧ noCompress = false then
              if compressSucceeds (rc (j + 1)) then cp (j + 1) else pdfs[j]
            else pdfs[j]) := by
  simp [processedDocs, List.getElem?_map, List.getElem?_enum,
    List.getElem?_eq_getElem hj]

/-- Flattening the Output Groups of either path of `combine_pdfs`
recovers the full page sequence. -/
theorem combineGroups_flatten (docs : List Doc) (mopt : Option ℚ) :
    (combineGroups docs mopt).flatten = pagesWithSizes docs := by
  cases mopt with
  | none => simp [combineGroups]
  | some mb =>
    simp only [combineGroups]
    split
    · next h => simp [List.isEmpty_iff.mp h]
    · simpa using groupLoop_flatten ((maxSizeBytes mb : ℤ) : ℚ)
        (pagesWithSizes docs) [] 0 []

/-- No Output Group of the splitting path is empty. -/
theorem combineGroups_ne_nil (docs : List Doc) (mb : ℚ) :
    ∀ g ∈ combineGroups docs (some mb), g ≠ [] := by
  intro g hg
  simp only [combineGroups] at hg
  split at hg
  · simp at hg
  · exact groupLoop_ne_nil _ _ [] 0 [] (by simp) g hg

/-! ### Claim theorems -/

/-- C1: for every ceiling `C > 0` (the splitting path's
`max_size_bytes`) and every document sequence, every Output Group of
the splitting path of `combine_pdfs` has cumulative estimated cost at
most `C`, except that a group may be a single page whose estimate alone
exceeds `C`. -/
theorem splitting_groups_within_ceiling (docs : List Doc) (mb : ℚ)
    (_hC : 0 < maxSizeBytes mb) (g : List PageUnit)
    (hg : g ∈ combineGroups docs (some mb)) :
    sumCost g ≤ ((maxSizeBytes mb : ℤ) : ℚ) ∨
      ∃ pe, g = [pe] ∧ ((maxSizeBytes mb : ℤ) : ℚ) < pe.2 := by
  simp only [combineGroups] at hg
  split at hg
  · exact absurd hg (by simp)
  · exact groupLoop_good _ _ [] 0 [] (by simp [sumCost]) (Or.inl rfl)
      (by simp) g hg

/-- Witness for C1 at one document of 3 bytes and 1 page with a 1 MB
ceiling. -/
theorem splitting_groups_within_ceiling_witness :
    sumCost [(((0 : Nat), (0 : Nat)), (3 : ℚ))] ≤ ((maxSizeBytes 1 : ℤ) : ℚ) ∨
      ∃ pe, [(((0 : Nat), (0 : Nat)), (3 : ℚ))] = [pe] ∧
        ((maxSizeBytes 1 : ℤ) : ℚ) < pe.2 :=
  splitting_groups_within_ceiling [⟨3, 1⟩] 1
    (by norm_num [maxSizeBytes, pyInt]) _
    (by
      norm_num [combineGroups, pagesWithSizes, docPages, estPageBytes,
        groupLoop, List.range_succ, List.enum, List.enumFrom]
      rfl)

/-- C2: for every document sequence and any ceiling (present or
absent), concatenating the Output Groups of `combine_pdfs` in group
order yields exactly the sequence of all pages of all documents in
input order: no page is dropped, duplicated, or reordered. -/
theorem groups_concat_eq_all_pages (docs : List Doc) (mopt : Option ℚ) :
    (combineGroups docs mopt).flatten = pagesWithSizes docs :=
  combineGroups_flatten docs mopt

/-- C3: one step of the grouping loop admits the incoming page into the
current group exactly when the group is empty or the accumulated cost
plus the page's estimate is at most the ceiling (boundary inclusive);
otherwise the group is closed and a new group starts with just that
page — so the first page of a group is always admitted. -/
theorem page_admission_rule (maxB size : ℚ) (pe : PageUnit)
    (rest cur : List PageUnit) (parts : List (List PageUnit)) :
    groupLoop maxB (pe :: rest) cur size parts =
      if cur = [] ∨ size + pe.2 ≤ maxB then
        groupLoop maxB rest (cur ++ [pe]) (size + pe.2) parts
      else
        groupLoop maxB rest [pe] pe.2 (parts ++ [cur]) := by
  simp only [groupLoop]
  by_cases h1 : cur = []
  · simp [h1]
  · by_cases h2 : size + pe.2 ≤ maxB
    · simp [h1, h2, not_lt.mpr h2]
    · simp [h1, h2, lt_of_not_le h2]

/-- C5: with no ceiling, `combine_pdfs` produces a single Output Group
holding every page of every document in input order, and returns
exactly the given output path. -/
theorem no_ceiling_single_output (docs : List Doc) (out : OutPath) :
    combineGroups docs none = [pagesWithSizes docs] ∧
    combineOutputs docs out none = [out] :=
  ⟨rfl, rfl⟩

/-- C4: the 40MB/3-page, 20MB/2-page, 90MB/1-page inputs with a 50 MB
ceiling produce exactly three groups — the three pages of document 0
plus the first page of document 1 (cumulative cost exactly 50 MB,
admitted at the boundary), then document 1's second page, then
document 2's single oversized page — written to `_part1.._part3`. -/
theorem scenario_40_20_90 (out : OutPath) :
    combineGroups [⟨41943040, 3⟩, ⟨20971520, 2⟩, ⟨94371840, 1⟩] (some 50) =
      [[((0, 0), 41943040 / 3), ((0, 1), 41943040 / 3),
        ((0, 2), 41943040 / 3), ((1, 0), 10485760)],
       [((1, 1), 10485760)],
       [((2, 0), 94371840)]] ∧
    combineOutputs [⟨41943040, 3⟩, ⟨20971520, 2⟩, ⟨94371840, 1⟩] out
        (some 50) = [partPath out 1, partPath out 2, partPath out 3] := by
  have hgroups : combineGroups [⟨41943040, 3⟩, ⟨20971520, 2⟩, ⟨94371840, 1⟩]
      (some 50) =
      [[((0, 0), 41943040 / 3), ((0, 1), 41943040 / 3),
        ((0, 2), 41943040 / 3), ((1, 0), 10485760)],
       [((1, 1), 10485760)],
       [((2, 0), 94371840)]] := by
    norm_num [combineGroups, pagesWithSizes, docPages, estPageBytes,
      groupLoop, maxSizeBytes, pyInt, List.range_succ, List.enum,
      List.enumFrom]
  refine ⟨hgroups, ?_⟩
  simp [combineOutputs, hgroups, List.range_succ]

/-- C6: the per-page cost of a zero-page document is the guarded 0 (no
division by zero), such a document contributes no Page Units, no Output
Group of the splitting path is ever empty, and a zero total page count
yields zero groups and an empty list of output files. -/
theorem zero_page_documents_safe (d : Doc) (i : Nat) (docs docs2 : List Doc)
    (out : OutPath) (mb mb2 : ℚ) (h0 : d.nPages = 0)
    (hall : (docs.map Doc.nPages).sum = 0) :
    estPageBytes d = 0 ∧ docPages i d = [] ∧
    (∀ g ∈ combineGroups docs2 (some mb2), g ≠ []) ∧
    combineGroups docs (some mb) = [] ∧
    combineOutputs docs out (some mb) = [] := by
  have hpages : pagesWithSizes docs = [] := by
    have hlen := pagesWithSizes_length docs
    rw [hall] at hlen
    exact List.length_eq_zero.mp hlen
  refine ⟨by simp [estPageBytes, h0], by simp [docPages, h0],
    combineGroups_ne_nil docs2 mb2, ?_, ?_⟩
  · simp [combineGroups, hpages]
  · simp [combineOutputs, combineGroups, hpages]

/-- Witness for C6 at a 5-byte zero-page document. -/
theorem zero_page_documents_safe_witness :
    estPageBytes ⟨5, 0⟩ = 0 ∧ docPages 0 ⟨5, 0⟩ = [] ∧
    (∀ g ∈ combineGroups [⟨6, 3⟩] (some 1), g ≠ []) ∧
    combineGroups [⟨5, 0⟩] (some 1) = [] ∧
    combineOutputs [⟨5, 0⟩] ⟨"", "out", ".pdf"⟩ (some 1) = [] :=
  zero_page_documents_safe ⟨5, 0⟩ 0 [⟨5, 0⟩] [⟨6, 3⟩] ⟨"", "out", ".pdf"⟩
    1 1 rfl (by decide)

/-- C7: the processed sequence handed to combining has one entry per
collected input, in order; each entry is the scratch compressed file or
the original input, and a non-zero Ghostscript exit code for a document
forces the original for that document while leaving every other
position untouched. -/
theorem compression_failure_fallback {α : Type} (gsCmd : Option String)
    (noCompress : Bool) (rc : Nat → ℤ) (cp : Nat → α) (pdfs : List α)
    (j : Nat) (hj : j < pdfs.length) :
    (processedDocs gsCmd noCompress rc cp pdfs).length = pdfs.length ∧
    ((processedDocs gsCmd noCompress rc cp pdfs)[j]? = some (cp (j + 1)) ∨
      (processedDocs gsCmd noCompress rc cp pdfs)[j]? = pdfs[j]?) ∧
    (rc (j + 1) ≠ 0 →
      (processedDocs gsCmd noCompress rc cp pdfs)[j]? = pdfs[j]?) := by
  have hget := processedDocs_getElem gsCmd noCompress rc cp pdfs j hj
  have hpj : pdfs[j]? = some pdfs[j] := List.getElem?_eq_getElem hj
  refine ⟨by simp [processedDocs], ?_, ?_⟩
  · rw [hget, hpj]
    by_cases h1 : gsCmd.isSome = true ∧ noCompress = false
    · by_cases h2 : compressSucceeds (rc (j + 1)) = true
      · exact Or.inl (by simp [h1, h2])
      · exact Or.inr (by simp [h1, h2])
    · exact Or.inr (by simp [h1])
  · intro hrc
    rw [hget, hpj]
    have h2 : compressSucceeds (rc (j + 1)) = false := by
      simp [compressSucceeds, hrc]
    simp [h2]

/-- Witness for C7: two inputs, Ghostscript present, compression of
document 1 fails (exit code 1), so position 0 keeps the original. -/
theorem compression_failure_fallback_witness :
    (processedDocs (some "gs") false (fun i => if i = 1 then (1 : ℤ) else 0)
      (fun i => "compressed_" ++ toString i) ["a.pdf", "b.pdf"]).length =
        (["a.pdf", "b.pdf"] : List String).length ∧
    ((processedDocs (some "gs") false (fun i => if i = 1 then (1 : ℤ) else 0)
      (fun i => "compressed_" ++ toString i) ["a.pdf", "b.pdf"])[0]? =
        some ("compressed_" ++ toString (0 + 1)) ∨
      (processedDocs (some "gs") false (fun i => if i = 1 then (1 : ℤ) else 0)
        (fun i => "compressed_" ++ toString i) ["a.pdf", "b.pdf"])[0]? =
        (["a.pdf", "b.pdf"] : List String)[0]?) ∧
    ((if (0 : Nat) + 1 = 1 then (1 : ℤ) else 0) ≠ 0 →
      (processedDocs (some "gs") false (fun i => if i = 1 then (1 : ℤ) else 0)
        (fun i => "compressed_" ++ toString i) ["a.pdf", "b.pdf"])[0]? =
        (["a.pdf", "b.pdf"] : List String)[0]?) :=
  compression_failure_fallback (some "gs") false
    (fun i => if i = 1 then (1 : ℤ) else 0)
    (fun i => "compressed_" ++ toString i) ["a.pdf", "b.pdf"] 0 (by decide)

/-- C8: on the splitting path there is one output path per group, in
group order; a single group is written to `output_path` verbatim, and
with more than one group the `i`-th (1-based) goes to the sibling path
whose stem is the output stem with `_part<i>` appended, extension
unchanged. -/
theorem split_output_naming (docs : List Doc) (out : OutPath) (mb : ℚ) :
    (combineOutputs docs out (some mb)).length =
      (combineGroups docs (some mb)).length ∧
    ((combineGroups docs (some mb)).length = 1 →
      combineOutputs docs out (some mb) = [out]) ∧
    (1 < (combineGroups docs (some mb)).length →
      ∀ i < (combineGroups docs (some mb)).length,
        (combineOutputs docs out (some mb))[i]? =
          some { out with stem := out.stem ++ "_part" ++ toString (i + 1) }) := by
  refine ⟨by simp [combineOutputs], ?_, ?_⟩
  · intro h1
    simp [combineOutputs, h1, List.range_succ]
  · intro hgt i hi
    have hne : (combineGroups docs (some mb)).length ≠ 1 := by omega
    simp [combineOutputs, hne, List.getElem?_range, hi, partPath]

/-- C9 counterexample: at the requested resolution 200 the Ghostscript
argument list targets 300 dpi for mono raster content, not 200, and
carries no bicubic filter directive for mono images. -/
theorem mono_directives_differ :
    "-dMonoImageResolution=200" ∉
        compressArgs "gs" "in.pdf" "out.pdf" 200 "ebook" ∧
    "-dMonoImageResolution=300" ∈
        compressArgs "gs" "in.pdf" "out.pdf" 200 "ebook" ∧
    "-dMonoImageDownsampleType=/Bicubic" ∉
        compressArgs "gs" "in.pdf" "out.pdf" 200 "ebook" := by
  decide

/-- C9 amended: for every requested resolution and quality preset,
`compress_pdf` downsamples color and grayscale raster content to the
requested resolution with bicubic filtering, downsamples mono raster
content to `max(dpi, 300)` with no explicit filter-type directive,
forces DCT encoding for color and gray streams, and enables font
subsetting and duplicate-image detection. -/
theorem compress_args_directives (gsCmd inp outp : String) (dpi : ℤ)
    (quality : String) :
    "-dDownsampleColorImages=true" ∈ compressArgs gsCmd inp outp dpi quality ∧
    "-dColorImageResolution=" ++ toString dpi ∈
      compressArgs gsCmd inp outp dpi quality ∧
    "-dColorImageDownsampleType=/Bicubic" ∈
      compressArgs gsCmd inp outp dpi quality ∧
    "-dDownsampleGrayImages=true" ∈ compressArgs gsCmd inp outp dpi quality ∧
    "-dGrayImageResolution=" ++ toString dpi ∈
      compressArgs gsCmd inp outp dpi quality ∧
    "-dGrayImageDownsampleType=/Bicubic" ∈
      compressArgs gsCmd inp outp dpi quality ∧
    "-dDownsampleMonoImages=true" ∈ compressArgs gsCmd inp outp dpi quality ∧
    "-dMonoImageResolution=" ++ toString (max dpi 300) ∈
      compressArgs gsCmd inp outp dpi quality ∧
    "-dAutoFilterColorImages=false" ∈ compressArgs gsCmd inp outp dpi quality ∧
    "-dColorImageFilter=/DCTEncode" ∈ compressArgs gsCmd inp outp dpi quality ∧
    "-dAutoFilterGrayImages=false" ∈ compressArgs gsCmd inp outp dpi quality ∧
    "-dGrayImageFilter=/DCTEncode" ∈ compressArgs gsCmd inp outp dpi quality ∧
    "-dSubsetFonts=true" ∈ compressArgs gsCmd inp outp dpi quality ∧
    "-dDetectDuplicateImages=true" ∈ compressArgs gsCmd inp outp dpi quality ∧
    "-dPDFSETTINGS=" ++ gsPreset quality ∈
      compressArgs gsCmd inp outp dpi quality := by
  refine ⟨?_, ?_, ?_, ?_, ?_, ?_, ?_, ?_, ?_, ?_, ?_, ?_, ?_, ?_, ?_⟩ <;>
    simp [compressArgs]

/-- C10: `combine_pdfs` distinguishes the ceiling 0 from no ceiling: it
takes the splitting path with `max_size_bytes = 0`, every page with a
positive estimate forms its own singleton group, and when every page
estimate is positive there is exactly one output file per page. -/
theorem zero_ceiling_splits_per_page (docs : List Doc) (out : OutPath) :
    maxSizeBytes 0 = 0 ∧
    (∀ g ∈ combineGroups docs (some 0), ∀ pe ∈ g, 0 < pe.2 → g = [pe]) ∧
    ((∀ pe ∈ pagesWithSizes docs, 0 < pe.2) →
      (combineOutputs docs out (some 0)).length =
        (pagesWithSizes docs).length) := by
  have hmax : maxSizeBytes 0 = 0 := by norm_num [maxSizeBytes, pyInt]
  have hsing : ∀ g ∈ combineGroups docs (some 0), ∀ pe ∈ g,
      0 < pe.2 → g = [pe] := by
    intro g hg
    simp only [combineGroups] at hg
    split at hg
    · simp at hg
    · refine groupLoop_singleton _ ?_ _ [] 0 []
        (pagesWithSizes_cost_nonneg docs) (by simp [sumCost]) (by simp)
        (by simp) (by simp) g hg
      rw [hmax]
      norm_num
  refine ⟨hmax, hsing, ?_⟩
  intro hpos
  have houtlen : (combineOutputs docs out (some 0)).length =
      (combineGroups docs (some 0)).length := by
    simp [combineOutputs]
  rw [houtlen, ← combineGroups_flatten docs (some 0)]
  refine (flatten_length_of_singletons _ ?_).symm
  intro g hg
  have hne : g ≠ [] := combineGroups_ne_nil docs 0 g hg
  cases g with
  | nil => exact absurd rfl hne
  | cons pe t =>
    have hpe_mem : pe ∈ pagesWithSizes docs := by
      rw [← combineGroups_flatten docs (some 0)]
      exact List.mem_flatten.mpr ⟨_, hg, by simp⟩
    exact ⟨pe, hsing _ hg pe (by simp) (hpos pe hpe_mem)⟩

end SheetPress
